import Mathlib

/-!
A shallow embedding of `src/externals/opentsdb/opentsdb_raw_encoder.go`
(package `opentsdb` of heka-tsutils-plugins).  Text is modelled as
`List Char` so that every operation computes by kernel reduction; each text
helper mirrors the Go standard-library function named in its doc comment.
The heka `Message` collaborator is modelled by exactly the operations the
encoder uses: named-field lookup, the field list in iteration order, and a
nanosecond timestamp.
-/

namespace OpenTsdbRaw

/-- Text, as a list of characters (`string` in Go). -/
abbrev Text : Type := List Char

/-- Go `strings.HasPrefix s pre`. -/
def beginsWith : Text → Text → Bool
  | _, [] => true
  | [], _ :: _ => false
  | c :: s, p :: ps => c == p && beginsWith s ps

/-- Go `strings.TrimLeft s cutset`: strip every leading character that is a
member of the cutset's character set. -/
def trimLeft (s cutset : Text) : Text :=
  s.dropWhile (fun c => cutset.contains c)

/-- Go `strings.ToLower`, on the ASCII range the encoder compares
(the literal `"host"`). -/
def toLower (s : Text) : Text := s.map Char.toLower

/-- Fuel-driven worker for `split` (the fuel is an upper bound on the input
length, so it never runs out at the call site below). -/
def splitAux (sep : Text) : Nat → Text → Text → List Text
  | 0, s, acc => [acc.reverse ++ s]
  | _ + 1, [], acc => [acc.reverse]
  | fuel + 1, c :: rest, acc =>
    if beginsWith (c :: rest) sep then
      acc.reverse :: splitAux sep fuel (List.drop (sep.length - 1) rest) []
    else
      splitAux sep fuel rest (c :: acc)

/-- Go `strings.Split s sep` for a non-empty separator (the encoder only
splits on a non-empty `TagNamePrefix`): split around every non-overlapping
occurrence of `sep`, keeping empty segments. -/
def split (s sep : Text) : List Text := splitAux sep (s.length + 1) s []

/-- Fuel-driven worker for `splitN2`. -/
def splitN2Aux (sep : Text) : Nat → Text → Text → List Text
  | 0, s, acc => [acc.reverse ++ s]
  | _ + 1, [], acc => [acc.reverse]
  | fuel + 1, c :: rest, acc =>
    if beginsWith (c :: rest) sep then
      [acc.reverse, List.drop (sep.length - 1) rest]
    else
      splitN2Aux sep fuel rest (c :: acc)

/-- Go `strings.SplitN s sep 2` for a non-empty separator: split at the
first occurrence of `sep` only. -/
def splitN2 (s sep : Text) : List Text := splitN2Aux sep (s.length + 1) s []

/-- Go `fmt.Sprint` of an `int64`. -/
def renderInt (i : Int) : Text :=
  if i < 0 then '-' :: Nat.toDigits 10 i.natAbs else Nat.toDigits 10 i.toNat

/-- A heka field value as the encoder distinguishes them: text, integer, or
floating point.  A float is carried by its `%v` decimal rendering, which is
all the encoder ever does with one; Go interface equality agrees with
equality of this model on the values the encoder compares. -/
inductive FieldValue : Type where
  | str (s : Text)
  | int (i : Int)
  | double (rendered : Text)
deriving DecidableEq

/-- Go `fmt.Sprint` / `%v` of a field value. -/
def renderValue : FieldValue → Text
  | .str s => s
  | .int i => renderInt i
  | .double rendered => rendered

/-- The heka `Message` collaborator, reduced to what `Encode` reads: the
named fields in iteration order plus the nanosecond timestamp. -/
structure Message : Type where
  fields : List (Text × FieldValue)
  timestamp : Int

/-- Go `message.GetFieldValue name`: the value of the first field carrying
the given name, when present. -/
def getFieldValue (msg : Message) (name : Text) : Option FieldValue :=
  match msg.fields.find? (fun f => f.1 == name) with
  | some f => some f.2
  | none => none

/-- `OpenTsdbRawEncoderConfig`.  The Go field names `TagNamePrefix` and
`TagValuePrefix` appear here as `tagNamePre` and `tagValuePre`. -/
structure OpenTsdbRawEncoderConfig : Type where
  tagNamePre : Text
  tagValuePre : Text
  tsFromMessage : Bool
  fieldsToTags : Bool
  addHostnameIfMissing : Bool
  dedupeFlush : Int

/-- The per-series `dedupe` record: last rendered data, whether the last
sighting was suppressed, its timestamp (nanoseconds) and its value. -/
structure Dedupe : Type where
  data : Text
  skipped : Bool
  ts : Int
  val : FieldValue
deriving DecidableEq

/-- `OpenTsdbRawEncoder`: configuration, cached hostname, and the dedupe
map, modelled as an association list in which the most recent binding for a
key shadows older ones. -/
structure OpenTsdbRawEncoder : Type where
  config : OpenTsdbRawEncoderConfig
  hostname : Text
  dedupeBuffer : List (Text × Dedupe)

/-- `Init`: cache the hostname, start with an empty dedupe map, and default
`TagValuePrefix` to `"."` when `TagNamePrefix` is set and it is empty. -/
def initEncoder (config : OpenTsdbRawEncoderConfig) (hostname : Text) :
    OpenTsdbRawEncoder :=
  { config :=
      if config.tagNamePre ≠ [] ∧ config.tagValuePre = [] then
        { config with tagValuePre := ['.'] }
      else config
    hostname := hostname
    dedupeBuffer := [] }

/-- Lookup in the dedupe map (`oe.dedupeBuffer[bufkey]`). -/
def dedupeLookup : List (Text × Dedupe) → Text → Option Dedupe
  | [], _ => none
  | (k, v) :: rest, key => if k = key then some v else dedupeLookup rest key

/-- Store into the dedupe map (`oe.dedupeBuffer[bufkey] = entry`): the new
binding shadows any older one for the same key. -/
def dedupeStore (buffer : List (Text × Dedupe)) (key : Text) (entry : Dedupe) :
    List (Text × Dedupe) :=
  (key, entry) :: buffer

/-- One step of the embedded-tag loop of `Encode`: split the segment at the
first occurrence of the value delimiter; when that yields exactly two
non-empty parts, append `key=value` to the line buffer (the Go code writes
`fmt.Sprintf("%s=%s", kv[0], kv[1])`, with no leading space) and record a
case-insensitive sighting of the key `host`.  Any other segment contributes
nothing. -/
def embeddedTagStep (tagValuePre : Text) (acc : Text × Bool) (tag : Text) :
    Text × Bool :=
  match splitN2 tag tagValuePre with
  | [k, v] =>
    if k ≠ [] ∧ v ≠ [] then
      (acc.1 ++ k ++ '=' :: v, acc.2 || (toLower k == "host".data))
    else acc
  | _ => acc

/-- One step of the fields-to-tags loop of `Encode`: a field whose name
begins with `TagNamePrefix`, other than `Metric` and `Value`, has its name
trimmed with `strings.TrimLeft` and is appended to the field-tag buffer as
`" key=value"`; a sighting of the key `host` is recorded by exact
(case-sensitive) comparison of the trimmed name. -/
def fieldTagStep (tagNamePre : Text) (acc : Text × Bool)
    (field : Text × FieldValue) : Text × Bool :=
  if beginsWith field.1 tagNamePre then
    if field.1 = "Metric".data ∨ field.1 = "Value".data then acc
    else
      (acc.1 ++ ' ' :: trimLeft field.1 tagNamePre ++ '=' :: renderValue field.2,
       acc.2 || (trimLeft field.1 tagNamePre == "host".data))
  else acc

/-- The bare metric name and the embedded-tag segments: with a non-empty
`TagNamePrefix` the metric text is split on it and the first segment is the
bare name; otherwise the whole metric text is the bare name. -/
def bareAndTags (tagNamePre metricText : Text) : Text × List Text :=
  if tagNamePre ≠ [] then
    match split metricText tagNamePre with
    | [] => ([], [])
    | first :: rest => (first, rest)
  else (metricText, [])

/-- What the formatting phase of `Encode` (everything before the `// dedupe`
block) produces: the rendered line with its trailing newline, the raw metric
text and the field-tag buffer (together they form the series key), the value,
and the nanosecond timestamp used. -/
structure FormatResult : Type where
  line : Text
  metricText : Text
  ftags : Text
  value : FieldValue
  tsNanos : Int
deriving DecidableEq

/-- The formatting phase of `Encode`, failing with the missing field's name
when `Metric` or `Value` is absent.  `now` is `time.Now()` in nanoseconds,
read only when `TsFromMessage` is false.  The `Metric` field is used in its
text form (the record contract supplies text; with a tag-name delimiter the
Go code asserts `metric.(string)`). -/
def formatLine (cfg : OpenTsdbRawEncoderConfig) (hostname : Text) (now : Int)
    (msg : Message) : Except Text FormatResult :=
  match getFieldValue msg "Metric".data with
  | none => .error "Metric".data
  | some metric =>
    let metricText := renderValue metric
    let bt := bareAndTags cfg.tagNamePre metricText
    let tsNanos : Int := if cfg.tsFromMessage then msg.timestamp else now
    match getFieldValue msg "Value".data with
    | none => .error "Value".data
    | some value =>
      let emb := bt.2.foldl (embeddedTagStep cfg.tagValuePre) ([], false)
      let ft :=
        if cfg.fieldsToTags then
          msg.fields.foldl (fieldTagStep cfg.tagNamePre) ([], emb.2)
        else ([], emb.2)
      let hostTag : Text :=
        if ft.2 = false ∧ cfg.addHostnameIfMissing = true ∧ hostname ≠ [] then
          ' ' :: "host=".data ++ hostname
        else []
      let line :=
        "put ".data ++ bt.1 ++ ' ' :: renderInt (tsNanos.fdiv 1000000000) ++
          ' ' :: renderValue value ++ emb.1 ++ ft.1 ++ hostTag ++ ['\n']
      .ok { line := line, metricText := metricText, ftags := ft.1,
            value := value, tsNanos := tsNanos }

/-- The outcome of one `Encode` call: a missing-field error naming the
field, `nothing` (the `(nil, nil)` return: suppressed, emit nothing), or an
output buffer. -/
inductive EncodeResult : Type where
  | err (field : Text)
  | nothing
  | out (line : Text)
deriving DecidableEq

/-- The series key: `fmt.Sprintf("%s:%s", metric, ftags)`. -/
def bufkeyOf (fr : FormatResult) : Text := fr.metricText ++ ':' :: fr.ftags

/-- The dedupe block of `Encode` (run only when `DedupeFlush > 0`): decide
between suppression, flush-then-emit, and plain emission, then store the
last data point for the series key. -/
def dedupeStep (window : Int) (buffer : List (Text × Dedupe))
    (fr : FormatResult) : EncodeResult × List (Text × Dedupe) :=
  match dedupeLookup buffer (bufkeyOf fr) with
  | some prior =>
    if prior.val = fr.value ∧ fr.tsNanos - prior.ts < window * 1000000000 then
      (.nothing,
       dedupeStore buffer (bufkeyOf fr)
         { data := fr.line, skipped := true, ts := prior.ts, val := fr.value })
    else
      let outLine :=
        if (prior.skipped = true ∨ fr.tsNanos - prior.ts ≥ window * 1000000000) ∧
            prior.val ≠ fr.value then
          prior.data ++ fr.line
        else fr.line
      (.out outLine,
       dedupeStore buffer (bufkeyOf fr)
         { data := outLine, skipped := false, ts := fr.tsNanos, val := fr.value })
  | none =>
    (.out fr.line,
     dedupeStore buffer (bufkeyOf fr)
       { data := fr.line, skipped := false, ts := fr.tsNanos, val := fr.value })

/-- `Encode`: format the line, then, when `DedupeFlush > 0`, run the dedupe
block; when `DedupeFlush ≤ 0` the candidate line is returned unmodified and
no state is recorded. -/
def encode (oe : OpenTsdbRawEncoder) (now : Int) (msg : Message) :
    EncodeResult × OpenTsdbRawEncoder :=
  match formatLine oe.config oe.hostname now msg with
  | .error f => (.err f, oe)
  | .ok fr =>
    if oe.config.dedupeFlush > 0 then
      ((dedupeStep oe.config.dedupeFlush oe.dedupeBuffer fr).1,
       { oe with dedupeBuffer := (dedupeStep oe.config.dedupeFlush oe.dedupeBuffer fr).2 })
    else (.out fr.line, oe)

/-! Concrete fixtures used by the theorems below.  Each claim has its own
fixtures; a configuration with an empty tag-name delimiter and field
promotion enabled renders `Metric` and `Value` into no field tags, so the
series key of a message with metric text `m` is `m:`. -/

def cfgC2 : OpenTsdbRawEncoderConfig :=
  { tagNamePre := [], tagValuePre := [], tsFromMessage := true,
    fieldsToTags := true, addHostnameIfMissing := false, dedupeFlush := 60 }

def priorC2 : Dedupe :=
  { data := "put m 0 1\n".data, skipped := false, ts := 0, val := .int 1 }

def oeC2 : OpenTsdbRawEncoder :=
  { config := cfgC2, hostname := [], dedupeBuffer := [("m:".data, priorC2)] }

def msgC2 : Message :=
  { fields := [("Metric".data, .str "m".data), ("Value".data, .int 1)],
    timestamp := 10000000000 }

def frC2 : FormatResult :=
  { line := "put m 10 1\n".data, metricText := "m".data, ftags := [],
    value := .int 1, tsNanos := 10000000000 }

/-- C2: with a positive dedupe window, when the series key has prior state,
the value equals the stored value and the elapsed time since the stored
timestamp is strictly below the window, the call emits nothing and
overwrites the stored state with the candidate line, suppressed mark set,
the same value, and the prior timestamp unchanged. -/
theorem dedupe_suppression_c2
    (oe : OpenTsdbRawEncoder) (now : Int) (msg : Message) (fr : FormatResult)
    (prior : Dedupe)
    (hw : oe.config.dedupeFlush > 0)
    (hf : formatLine oe.config oe.hostname now msg = .ok fr)
    (hp : dedupeLookup oe.dedupeBuffer (bufkeyOf fr) = some prior)
    (hv : prior.val = fr.value)
    (ht : fr.tsNanos - prior.ts < oe.config.dedupeFlush * 1000000000) :
    encode oe now msg =
      (.nothing,
       { oe with dedupeBuffer := (dedupeStore oe.dedupeBuffer (bufkeyOf fr)
           { data := fr.line, skipped := true, ts := prior.ts, val := fr.value }) }) := by
  simp only [encode, hf]
  rw [if_pos hw]
  simp only [dedupeStep, hp]
  rw [if_pos ⟨hv, ht⟩]

/-- Witness for C2: a second sighting of series `m:` with the value still
`1`, ten seconds after the stored point, inside a sixty-second window. -/
theorem dedupe_suppression_c2_witness :
    encode oeC2 0 msgC2 =
      (.nothing,
       { oeC2 with dedupeBuffer := (dedupeStore oeC2.dedupeBuffer (bufkeyOf frC2)
           { data := frC2.line, skipped := true, ts := priorC2.ts,
             val := frC2.value }) }) :=
  dedupe_suppression_c2 oeC2 0 msgC2 frC2 priorC2 (by decide) (by rfl) (by decide)
    (by decide) (by decide)

def cfgC6 : OpenTsdbRawEncoderConfig :=
  { tagNamePre := [], tagValuePre := [], tsFromMessage := true,
    fieldsToTags := true, addHostnameIfMissing := false, dedupeFlush := 60 }

def priorC6 : Dedupe :=
  { data := "put m 0 1\n".data, skipped := false, ts := 0, val := .int 1 }

def oeC6 : OpenTsdbRawEncoder :=
  { config := cfgC6, hostname := [], dedupeBuffer := [("m:".data, priorC6)] }

def msgC6 : Message :=
  { fields := [("Metric".data, .str "m".data), ("Value".data, .int 1)],
    timestamp := 60000000000 }

def frC6 : FormatResult :=
  { line := "put m 60 1\n".data, metricText := "m".data, ftags := [],
    value := .int 1, tsNanos := 60000000000 }

/-- C6: with prior state, an unchanged value and an elapsed time exactly
equal to `dedupeFlush * 1e9`, the record is not suppressed: the candidate
line alone is emitted with no flush concatenation, and a fresh
non-suppressed state with the new timestamp is stored. -/
theorem dedupe_boundary_c6
    (oe : OpenTsdbRawEncoder) (now : Int) (msg : Message) (fr : FormatResult)
    (prior : Dedupe)
    (hw : oe.config.dedupeFlush > 0)
    (hf : formatLine oe.config oe.hostname now msg = .ok fr)
    (hp : dedupeLookup oe.dedupeBuffer (bufkeyOf fr) = some prior)
    (hv : prior.val = fr.value)
    (ht : fr.tsNanos - prior.ts = oe.config.dedupeFlush * 1000000000) :
    encode oe now msg =
      (.out fr.line,
       { oe with dedupeBuffer := (dedupeStore oe.dedupeBuffer (bufkeyOf fr)
           { data := fr.line, skipped := false, ts := fr.tsNanos,
             val := fr.value }) }) := by
  simp only [encode, hf]
  rw [if_pos hw]
  simp only [dedupeStep, hp]
  rw [if_neg (fun h => lt_irrefl _ (ht ▸ h.2)), if_neg (fun h => h.2 hv)]

/-- Witness for C6: the stored point is at `t = 0`, the record at exactly
`t = 60s`, the window sixty seconds, the value unchanged. -/
theorem dedupe_boundary_c6_witness :
    encode oeC6 0 msgC6 =
      (.out frC6.line,
       { oeC6 with dedupeBuffer := (dedupeStore oeC6.dedupeBuffer (bufkeyOf frC6)
           { data := frC6.line, skipped := false, ts := frC6.tsNanos,
             val := frC6.value }) }) :=
  dedupe_boundary_c6 oeC6 0 msgC6 frC6 priorC6 (by decide) (by rfl) (by decide)
    (by decide) (by decide)

def cfgC3 : OpenTsdbRawEncoderConfig :=
  { tagNamePre := [], tagValuePre := [], tsFromMessage := true,
    fieldsToTags := true, addHostnameIfMissing := false, dedupeFlush := 60 }

def priorC3 : Dedupe :=
  { data := "put m 10 1\n".data, skipped := true, ts := 0, val := .int 1 }

def oeC3 : OpenTsdbRawEncoder :=
  { config := cfgC3, hostname := [], dedupeBuffer := [("m:".data, priorC3)] }

def msgC3 : Message :=
  { fields := [("Metric".data, .str "m".data), ("Value".data, .int 2)],
    timestamp := 15000000000 }

def frC3 : FormatResult :=
  { line := "put m 15 2\n".data, metricText := "m".data, ftags := [],
    value := .int 2, tsNanos := 15000000000 }

/-- C3: with a positive window, (i) whenever the series key holds prior
state, the value changed and the prior was suppressed or the elapsed time
reached the window, the output is the stored prior line followed by the
candidate line; (ii) in every other case the call emits nothing or exactly
the candidate line, so the flush branch is the only source of an output
holding two data points. -/
theorem dedupe_flush_c3
    (oe : OpenTsdbRawEncoder) (now : Int) (msg : Message) (fr : FormatResult)
    (hw : oe.config.dedupeFlush > 0)
    (hf : formatLine oe.config oe.hostname now msg = .ok fr) :
    (∀ prior, dedupeLookup oe.dedupeBuffer (bufkeyOf fr) = some prior →
       prior.val ≠ fr.value →
       (prior.skipped = true ∨
         fr.tsNanos - prior.ts ≥ oe.config.dedupeFlush * 1000000000) →
       (encode oe now msg).1 = .out (prior.data ++ fr.line)) ∧
    ((encode oe now msg).1 = .nothing ∨ (encode oe now msg).1 = .out fr.line ∨
      ∃ prior, dedupeLookup oe.dedupeBuffer (bufkeyOf fr) = some prior ∧
        prior.val ≠ fr.value ∧
        (prior.skipped = true ∨
          fr.tsNanos - prior.ts ≥ oe.config.dedupeFlush * 1000000000) ∧
        (encode oe now msg).1 = .out (prior.data ++ fr.line)) := by
  constructor
  · intro prior hp hv hc
    simp only [encode, hf]
    rw [if_pos hw]
    simp only [dedupeStep, hp]
    rw [if_neg (fun h => hv h.1), if_pos ⟨hc, hv⟩]
  · rcases hp : dedupeLookup oe.dedupeBuffer (bufkeyOf fr) with _ | prior
    · right; left
      simp only [encode, hf]
      rw [if_pos hw]
      simp only [dedupeStep, hp]
    · by_cases hs : prior.val = fr.value ∧
          fr.tsNanos - prior.ts < oe.config.dedupeFlush * 1000000000
      · left
        simp only [encode, hf]
        rw [if_pos hw]
        simp only [dedupeStep, hp]
        rw [if_pos hs]
      · by_cases hfl : (prior.skipped = true ∨
            fr.tsNanos - prior.ts ≥ oe.config.dedupeFlush * 1000000000) ∧
            prior.val ≠ fr.value
        · right; right
          refine ⟨prior, rfl, hfl.2, hfl.1, ?_⟩
          simp only [encode, hf]
          rw [if_pos hw]
          simp only [dedupeStep, hp]
          rw [if_neg hs, if_pos hfl]
        · right; left
          simp only [encode, hf]
          rw [if_pos hw]
          simp only [dedupeStep, hp]
          rw [if_neg hs, if_neg hfl]

/-- Witness for C3: the prior point for `m:` carries value `1` and the
suppressed mark, the record carries value `2`, so the call emits the stored
line followed by the candidate line. -/
theorem dedupe_flush_c3_witness :
    (encode oeC3 0 msgC3).1 = .out ("put m 10 1\n".data ++ "put m 15 2\n".data) :=
  (dedupe_flush_c3 oeC3 0 msgC3 frC3 (by decide) (by rfl)).1 priorC3
    (by decide) (by decide) (by decide)

def cfgC1 : OpenTsdbRawEncoderConfig :=
  { tagNamePre := [], tagValuePre := [], tsFromMessage := true,
    fieldsToTags := true, addHostnameIfMissing := false, dedupeFlush := 60 }

def priorC1 : Dedupe :=
  { data := "put m 10 1\n".data, skipped := true, ts := 0, val := .int 1 }

def oeC1 : OpenTsdbRawEncoder :=
  { config := cfgC1, hostname := [], dedupeBuffer := [("m:".data, priorC1)] }

def msgC1 : Message :=
  { fields := [("Metric".data, .str "m".data), ("Value".data, .int 2)],
    timestamp := 15000000000 }

def frC1 : FormatResult :=
  { line := "put m 15 2\n".data, metricText := "m".data, ftags := [],
    value := .int 2, tsNanos := 15000000000 }

/-- C1 counterexample: a flush call (window sixty seconds, prior suppressed
with value `1`, record value `2`) is not suppressed, yet the state stored
for the series key afterwards carries the concatenation of the prior line
and the candidate line as its last line, not the candidate line alone —
the final store in the Go code reads the buffer after `buf = tmp`. -/
theorem dedupe_store_c1_cex :
    oeC1.config.dedupeFlush > 0 ∧
    formatLine oeC1.config oeC1.hostname 0 msgC1 = .ok frC1 ∧
    (encode oeC1 0 msgC1).1 ≠ .nothing ∧
    dedupeLookup (encode oeC1 0 msgC1).2.dedupeBuffer (bufkeyOf frC1) ≠
      some { data := frC1.line, skipped := false, ts := frC1.tsNanos,
             val := frC1.value } :=
  ⟨by decide, by rfl, by decide, by decide⟩

/-- C1 as amended: with a positive window, every call whose decision is not
suppression stores, for the series key, the full output emitted by that
call (the candidate line, except in the flush branch, where it is the prior
stored line followed by the candidate line), with the suppressed mark
cleared, the record's value, and the record's timestamp. -/
theorem dedupe_store_c1
    (oe : OpenTsdbRawEncoder) (now : Int) (msg : Message) (fr : FormatResult)
    (s : Text)
    (hw : oe.config.dedupeFlush > 0)
    (hf : formatLine oe.config oe.hostname now msg = .ok fr)
    (hs : (encode oe now msg).1 = .out s) :
    dedupeLookup (encode oe now msg).2.dedupeBuffer (bufkeyOf fr) =
      some { data := s, skipped := false, ts := fr.tsNanos, val := fr.value } := by
  simp only [encode, hf] at hs ⊢
  rw [if_pos hw] at hs ⊢
  rcases hp : dedupeLookup oe.dedupeBuffer (bufkeyOf fr) with _ | prior
  · simp only [dedupeStep, hp] at hs ⊢
    cases hs
    simp [dedupeStore, dedupeLookup]
  · simp only [dedupeStep, hp] at hs ⊢
    by_cases hcond : prior.val = fr.value ∧
        fr.tsNanos - prior.ts < oe.config.dedupeFlush * 1000000000
    · rw [if_pos hcond] at hs; cases hs
    · rw [if_neg hcond] at hs ⊢
      cases hs
      simp [dedupeStore, dedupeLookup]

/-- Witness for the amended C1: the flush call of the counterexample stores
exactly the emitted two-line output as the new last line. -/
theorem dedupe_store_c1_witness :
    dedupeLookup (encode oeC1 0 msgC1).2.dedupeBuffer (bufkeyOf frC1) =
      some { data := "put m 10 1\n".data ++ "put m 15 2\n".data,
             skipped := false, ts := frC1.tsNanos, val := frC1.value } :=
  dedupe_store_c1 oeC1 0 msgC1 frC1 ("put m 10 1\n".data ++ "put m 15 2\n".data)
    (by decide) (by rfl) (by decide)

def cfgC4a : OpenTsdbRawEncoderConfig :=
  { tagNamePre := ".".data, tagValuePre := ".".data, tsFromMessage := true,
    fieldsToTags := false, addHostnameIfMissing := false, dedupeFlush := 0 }

def oeC4a : OpenTsdbRawEncoder :=
  { config := cfgC4a, hostname := [], dedupeBuffer := [] }

def msgC4a : Message :=
  { fields := [("Metric".data, .str "cpu.host.web1".data),
               ("Value".data, .int 42)],
    timestamp := 0 }

def cfgC4b : OpenTsdbRawEncoderConfig :=
  { tagNamePre := ",".data, tagValuePre := ".".data, tsFromMessage := true,
    fieldsToTags := false, addHostnameIfMissing := false, dedupeFlush := 0 }

def oeC4b : OpenTsdbRawEncoder :=
  { config := cfgC4b, hostname := [], dedupeBuffer := [] }

def msgC4b : Message :=
  { fields := [("Metric".data, .str "cpu,host.web1".data),
               ("Value".data, .int 42)],
    timestamp := 0 }

/-- C4 counterexample: (i) with tag-name and tag-value delimiters both `.`,
metric `cpu.host.web1` yields `put cpu 0 42\n` — splitting on `.` leaves no
segment containing the value delimiter, so no `host=web1` tag appears at
all; (ii) with tag-name delimiter `,` and value delimiter `.`, the segment
`host.web1` does parse, and the tag is written as `host=web1` glued
directly to the value with no separating space. -/
theorem embedded_tag_c4_cex :
    (encode oeC4a 0 msgC4a).1 = .out "put cpu 0 42\n".data ∧
    (encode oeC4b 0 msgC4b).1 = .out "put cpu 0 42host=web1\n".data :=
  ⟨by decide, by decide⟩

/-- C4 as amended: every embedded tag segment that splits at the first
occurrence of the value delimiter into exactly two non-empty parts is
emitted as `key=value` with no leading space, appended directly after what
precedes it; and metric `cpu.host.web1` with both delimiters `.` yields
bare name `cpu` and no embedded tag. -/
theorem embedded_tag_c4 :
    (∀ (pre : Text) (acc : Text × Bool) (tag k v : Text),
       splitN2 tag pre = [k, v] → k ≠ [] → v ≠ [] →
       embeddedTagStep pre acc tag =
         (acc.1 ++ k ++ '=' :: v, acc.2 || (toLower k == "host".data))) ∧
    (encode oeC4b 0 msgC4b).1 = .out "put cpu 0 42host=web1\n".data ∧
    (encode oeC4a 0 msgC4a).1 = .out "put cpu 0 42\n".data := by
  refine ⟨?_, by decide, by decide⟩
  intro pre acc tag k v h hk hv
  simp only [embeddedTagStep, h]
  rw [if_pos ⟨hk, hv⟩]

def cfgC5 : OpenTsdbRawEncoderConfig :=
  { tagNamePre := [], tagValuePre := [], tsFromMessage := true,
    fieldsToTags := true, addHostnameIfMissing := true, dedupeFlush := 0 }

def oeC5 : OpenTsdbRawEncoder :=
  { config := cfgC5, hostname := "h1".data, dedupeBuffer := [] }

def msgC5 : Message :=
  { fields := [("Metric".data, .str "m".data), ("Value".data, .int 7),
               ("Host".data, .int 1)],
    timestamp := 0 }

/-- C5 counterexample: the field `Host` is promoted to the tag `Host=1` — a
tag named host up to letter case — yet the fallback ` host=h1` is still
appended: the fields-to-tags loop compares the trimmed key against `host`
exactly and case-sensitively, unlike the case-insensitive comparison of the
embedded-tag loop. -/
theorem host_detection_c5_cex :
    toLower "Host".data = "host".data ∧
    (encode oeC5 0 msgC5).1 = .out "put m 0 7 Host=1 host=h1\n".data :=
  ⟨by decide, by decide⟩

/-- C5 as amended: a field-promoted tag records a `host` sighting only when
its trimmed key is exactly the lowercase `host`, so a field promoted as
`Host` does not suppress the fallback hostname tag even when
`addHostnameIfMissing` is set and a hostname resolved. -/
theorem host_detection_c5 :
    (∀ (pre : Text) (acc : Text × Bool) (field : Text × FieldValue),
       ((fieldTagStep pre acc field).2 = true ↔
         (acc.2 = true ∨ (beginsWith field.1 pre = true ∧
           ¬(field.1 = "Metric".data ∨ field.1 = "Value".data) ∧
           trimLeft field.1 pre = "host".data)))) ∧
    (encode oeC5 0 msgC5).1 = .out "put m 0 7 Host=1 host=h1\n".data := by
  refine ⟨?_, by decide⟩
  intro pre acc field
  by_cases hb : beginsWith field.1 pre = true
  · by_cases hmv : field.1 = "Metric".data ∨ field.1 = "Value".data
    · simp [fieldTagStep, hb, hmv]
    · simp [fieldTagStep, hb, hmv, beq_iff_eq]
  · rw [Bool.not_eq_true] at hb
    simp [fieldTagStep, hb]

/-- The dedupe block never produces an error result. -/
theorem dedupeStep_not_err (window : Int) (buffer : List (Text × Dedupe))
    (fr : FormatResult) (f : Text) : (dedupeStep window buffer fr).1 ≠ .err f := by
  unfold dedupeStep
  rcases hp : dedupeLookup buffer (bufkeyOf fr) with _ | prior
  · simp
  · by_cases hc : prior.val = fr.value ∧
        fr.tsNanos - prior.ts < window * 1000000000
    · simp [hc]
    · simp [hc]

/-- C7: an `Encode` call fails exactly when `Metric` or `Value` is absent;
the failure carries the missing field's name and leaves the encoder
unchanged (no output, no stored state), with `Metric` checked first; no
other condition — malformed tags, malformed field names, dedupe processing
— produces an error. -/
theorem missing_field_c7 (oe : OpenTsdbRawEncoder) (now : Int) (msg : Message) :
    ((∃ f, (encode oe now msg).1 = .err f) ↔
       (getFieldValue msg "Metric".data = none ∨
        getFieldValue msg "Value".data = none)) ∧
    (getFieldValue msg "Metric".data = none →
       encode oe now msg = (.err "Metric".data, oe)) ∧
    (∀ mv, getFieldValue msg "Metric".data = some mv →
       getFieldValue msg "Value".data = none →
       encode oe now msg = (.err "Value".data, oe)) := by
  rcases hM : getFieldValue msg "Metric".data with _ | mv
  · refine ⟨⟨fun _ => Or.inl rfl, fun _ => ⟨"Metric".data, ?_⟩⟩, fun _ => ?_,
      fun mv h _ => absurd h (by simp [hM])⟩
    · simp [encode, formatLine, hM]
    · simp [encode, formatLine, hM]
  · rcases hV : getFieldValue msg "Value".data with _ | vv
    · refine ⟨⟨fun _ => Or.inr rfl, fun _ => ⟨"Value".data, ?_⟩⟩,
        fun h => absurd h (by simp [hM]), fun mv _ _ => ?_⟩
      · simp [encode, formatLine, hM, hV]
      · simp [encode, formatLine, hM, hV]
    · refine ⟨⟨?_, ?_⟩, fun h => absurd h (by simp [hM]),
        fun mv _ h => absurd h (by simp [hV])⟩
      · rintro ⟨f, hferr⟩
        exfalso
        simp only [encode, formatLine, hM, hV] at hferr
        by_cases hw : oe.config.dedupeFlush > 0
        · rw [if_pos hw] at hferr
          exact dedupeStep_not_err _ _ _ f hferr
        · rw [if_neg hw] at hferr
          exact EncodeResult.noConfusion hferr
      · rintro (h | h)
        · exact absurd h (by simp [hM])
        · exact absurd h (by simp [hV])

def oeC7 : OpenTsdbRawEncoder :=
  { config := cfgC4a, hostname := [], dedupeBuffer := [] }

def msgC7 : Message :=
  { fields := [("Value".data, .int 42)], timestamp := 0 }

/-- Witness for C7: a message without a `Metric` field makes `Encode` fail
with the missing-`Metric` error and leaves the encoder unchanged. -/
theorem missing_field_c7_witness :
    encode oeC7 0 msgC7 = (.err "Metric".data, oeC7) :=
  (missing_field_c7 oeC7 0 msgC7).2.1 (by decide)

/-- The guard of the embedded-tag loop, negated: the segment does not split
at the first occurrence of the value delimiter into exactly two non-empty
parts. -/
def malformedSegment (tagValuePre tag : Text) : Bool :=
  match splitN2 tag tagValuePre with
  | [k, v] => k == [] || v == []
  | _ => true

/-- C8: a malformed embedded tag segment — one that does not split into
exactly two non-empty parts — contributes nothing at all: the loop step
leaves the line buffer and the host flag unchanged, so the segment is never
partially emitted and raises no error. -/
theorem malformed_segment_c8 (pre : Text) (acc : Text × Bool) (tag : Text)
    (h : malformedSegment pre tag = true) :
    embeddedTagStep pre acc tag = acc := by
  unfold malformedSegment at h
  unfold embeddedTagStep
  rcases hs : splitN2 tag pre with _ | ⟨k, _ | ⟨v, _ | ⟨w, rest⟩⟩⟩ <;>
    rw [hs] at h
  change (k == [] || v == []) = true at h
  change (if k ≠ [] ∧ v ≠ [] then
      (acc.1 ++ k ++ '=' :: v, acc.2 || (toLower k == "host".data))
    else acc) = acc
  rw [if_neg]
  intro hc
  rcases (Bool.or_eq_true _ _).mp h with hk | hv
  · exact hc.1 (by simpa using hk)
  · exact hc.2 (by simpa using hv)

/-- Witness for C8: with value delimiter `.`, the segment `hostweb1`
contains no delimiter and contributes nothing. -/
theorem malformed_segment_c8_witness :
    embeddedTagStep ".".data ([], false) "hostweb1".data = ([], false) :=
  malformed_segment_c8 ".".data ([], false) "hostweb1".data (by decide)

/-- Removal of one literal occurrence of the leading delimiter: the
alternative reading that the specification contrasts with the
character-class trim (for comparison only; the encoder does not use it). -/
def stripPreOnce (s pre : Text) : Text :=
  if beginsWith s pre then s.drop pre.length else s

/-- C9: the tag key of a promoted field is `strings.TrimLeft` of the field
name — the character-class trim that repeatedly strips leading characters
belonging to the delimiter's character set — which differs from removing
one occurrence of the delimiter substring: on the name `tag_total` with
delimiter `tag_` the trim yields `otal` while substring removal would
yield `total`. -/
theorem fieldtag_trim_c9 :
    (∀ (pre : Text) (acc : Text × Bool) (field : Text × FieldValue),
       beginsWith field.1 pre = true →
       ¬(field.1 = "Metric".data ∨ field.1 = "Value".data) →
       (fieldTagStep pre acc field).1 =
         acc.1 ++ ' ' :: trimLeft field.1 pre ++ '=' :: renderValue field.2) ∧
    trimLeft "tag_total".data "tag_".data = "otal".data ∧
    stripPreOnce "tag_total".data "tag_".data = "total".data ∧
    trimLeft "tag_total".data "tag_".data ≠
      stripPreOnce "tag_total".data "tag_".data := by
  refine ⟨?_, by decide, by decide, by decide⟩
  intro pre acc field hb hmv
  unfold fieldTagStep
  rw [if_pos hb, if_neg hmv]

/-- The rendering of every field other than `Metric` and `Value` as a tag
with its full, untrimmed name: what the fields-to-tags loop reduces to when
the tag-name delimiter is empty. -/
def promotedUntrimmed : List (Text × FieldValue) → Text
  | [] => []
  | f :: fs =>
    if f.1 = "Metric".data ∨ f.1 = "Value".data then promotedUntrimmed fs
    else (' ' :: f.1 ++ '=' :: renderValue f.2) ++ promotedUntrimmed fs

/-- An empty delimiter is a prefix of every name. -/
theorem beginsWith_nil (s : Text) : beginsWith s [] = true := by
  cases s <;> rfl

/-- Trimming with an empty cutset leaves the name unchanged. -/
theorem trimLeft_nil (s : Text) : trimLeft s [] = s := by
  cases s with
  | nil => rfl
  | cons c cs => simp [trimLeft, List.dropWhile_cons]

/-- The fields-to-tags loop with an empty delimiter, over any accumulator:
it appends exactly the untrimmed rendering of every non-`Metric`,
non-`Value` field. -/
theorem fieldTagStep_nil_foldl (fields : List (Text × FieldValue)) :
    ∀ (t : Text) (b : Bool),
      (List.foldl (fieldTagStep []) (t, b) fields).1 =
        t ++ promotedUntrimmed fields := by
  induction fields with
  | nil => intro t b; simp [promotedUntrimmed]
  | cons f fs ih =>
    intro t b
    rw [List.foldl_cons]
    by_cases h : f.1 = "Metric".data ∨ f.1 = "Value".data
    · rw [show fieldTagStep [] (t, b) f = (t, b) by
        unfold fieldTagStep; rw [if_pos (beginsWith_nil f.1), if_pos h]]
      rw [ih t b]
      simp only [promotedUntrimmed]
      rw [if_pos h]
    · rw [show fieldTagStep [] (t, b) f =
          (t ++ ' ' :: f.1 ++ '=' :: renderValue f.2,
           b || (trimLeft f.1 [] == "host".data)) by
        unfold fieldTagStep; rw [if_pos (beginsWith_nil f.1), if_neg h, trimLeft_nil]]
      rw [ih]
      simp only [promotedUntrimmed]
      rw [if_neg h]
      simp [List.append_assoc, trimLeft_nil]

/-- C10: with an empty tag-name delimiter and field promotion enabled,
every additional field other than `Metric` and `Value` is promoted to an
output tag carrying its full, untrimmed name — the empty-delimiter test
accepts every field name, the empty-cutset trim changes nothing — and the
field-tag buffer of a successful format is exactly that rendering. -/
theorem empty_delim_promotion_c10 :
    (∀ (fields : List (Text × FieldValue)) (b : Bool),
       (List.foldl (fieldTagStep []) ([], b) fields).1 =
         promotedUntrimmed fields) ∧
    (∀ (cfg : OpenTsdbRawEncoderConfig) (hostname : Text) (now : Int)
       (msg : Message) (fr : FormatResult),
       cfg.tagNamePre = [] → cfg.fieldsToTags = true →
       formatLine cfg hostname now msg = .ok fr →
       fr.ftags = promotedUntrimmed msg.fields) := by
  constructor
  · intro fields b
    rw [fieldTagStep_nil_foldl fields]
    rfl
  · intro cfg hostname now msg fr h1 h2 hf
    rcases hM : getFieldValue msg "Metric".data with _ | mv
    · simp [formatLine, hM] at hf
    · rcases hV : getFieldValue msg "Value".data with _ | vv
      · simp [formatLine, hM, hV] at hf
      · simp only [formatLine, hM, hV, h1, h2, if_true] at hf
        cases hf
        dsimp only
        rw [fieldTagStep_nil_foldl msg.fields]
        rfl

end OpenTsdbRaw
